import Mathlib

/-!
Verification of the interactive graph layout/rendering engine of the
MuseumASTGraph repository (src/components/GraphViewer.tsx, src/App.tsx).

The TypeScript source is shallowly embedded: machine numbers become `ℚ`
(exact rationals; all arithmetic the claims depend on is exact in IEEE
doubles at the magnitudes involved), the 32-bit shift of JavaScript is
modeled with an explicit `% 2^32` wrap, DOM groups become records carrying
the attributes the parser reads, and nullable handles/refs become `Option`
and `Bool` flags.  Fallible operations return `Option`; everything is
computable so that concrete inputs evaluate by `decide`.
-/

namespace MuseumASTGraph

/-! ## Edge-title splitting (GraphViewer.tsx lines 188-208)

The parser recovers edge endpoints with the JavaScript expression
`title.split(/-+>|--/)`.  The regex alternates between `-+>` (one or more
dashes then `>`, with backtracking over the greedy `-+`) and `--`.  Because
every character inside a dash run is a dash, `-+>` matches at a position iff
the maximal dash run there is followed by `>`, consuming the run plus the
`>`; otherwise `--` matches iff the run has length at least 2, consuming
exactly two dashes.  `matchSep` encodes that disjunction, and `splitSepAux`
performs the left-to-right scan of the JavaScript split, resuming after each
consumed separator. -/

/-- Length of the maximal run of dash characters at the head of the list. -/
def dashRun : List Char → Nat
  | [] => 0
  | c :: rest => if c = '-' then dashRun rest + 1 else 0

/-- Number of characters the regex `/-+>|--/` consumes when anchored at the
head of `cs`, or `none` when neither alternative matches there. -/
def matchSep (cs : List Char) : Option Nat :=
  if 1 ≤ dashRun cs ∧ cs[dashRun cs]? = some '>' then some (dashRun cs + 1)
  else if 2 ≤ dashRun cs then some 2
  else none

/-- The scan of the JavaScript split: find the leftmost separator match, cut
there, resume after the consumed characters.  `fuel` is an upper bound on the
number of characters still to scan (each step consumes at least one), so
calling with `fuel = cs.length` realizes the untruncated split. -/
def splitSepAux : Nat → List Char → List Char → List (List Char)
  | _, [], acc => [acc.reverse]
  | 0, c :: rest, acc => [acc.reverse ++ c :: rest]
  | fuel + 1, c :: rest, acc =>
    match matchSep (c :: rest) with
    | some n => acc.reverse :: splitSepAux fuel ((c :: rest).drop n) []
    | none => splitSepAux fuel rest (c :: acc)

/-- The expression `title.split(/-+>|--/)` from the edge-extraction effect. -/
def splitSep (s : String) : List String :=
  (splitSepAux s.data.length s.data []).map String.mk

/-- The characters strictly before the first `/-+>|--/` match (the whole list
when no separator occurs).  This is the "text before the first separator" of
the specification. -/
def beforeFirstSep : List Char → List Char
  | [] => []
  | c :: rest =>
    if (matchSep (c :: rest)).isSome then [] else c :: beforeFirstSep rest

/-- The characters strictly after the first `/-+>|--/` match (`none` when no
separator occurs).  This is the "text after the first separator" of the
specification. -/
def afterFirstSep : List Char → Option (List Char)
  | [] => none
  | c :: rest =>
    match matchSep (c :: rest) with
    | some n => some ((c :: rest).drop n)
    | none => afterFirstSep rest

/-- The separator-containment condition of the claim: the title contains a
directed separator (one or more dashes followed by `>` — equivalently the
two-character substring of a dash and a `>`, namely the last dash of the run
together with the `>`) or the undirected separator of two dashes. -/
def SepOccurs (cs : List Char) : Prop :=
  (∃ l2 r2, cs = l2 ++ ['-', '>'] ++ r2) ∨ (∃ l2 r2, cs = l2 ++ ['-', '-'] ++ r2)

/-- Endpoint recovery from an edge title: with
`parts = title.split(/-+>|--/)`, the edge `(parts[0], parts[1])` exists
exactly when `parts.length >= 2`. -/
def parseEdgeTitle (title : String) : Option (String × String) :=
  let parts := splitSep title
  if 2 ≤ parts.length then some (parts.getD 0 "", parts.getD 1 "") else none

/-! ## Color classifier (GraphViewer.tsx lines 31-52)

`getTypeColor` hashes the edge label with the JavaScript loop
`hash = type.charCodeAt(i) + ((hash << 5) - hash)` and indexes the fixed
ten-entry palette with `Math.abs(hash) % TYPE_COLORS.length`.  The shift
operator coerces its operand through ToInt32, modeled by `toInt32`; outside
the shift the accumulator is an exact IEEE double, modeled by an exact `Int`
(exact for all labels shorter than about `2^22` characters).  Characters are
UTF-16 code units, which agree with `Char.toNat` on the Basic Multilingual
Plane. -/

/-- The fixed palette of edge-type hues (`TYPE_COLORS`). -/
def TYPE_COLORS : List String :=
  ["#ef4444", "#f97316", "#84cc16", "#10b981", "#06b6d4",
   "#3b82f6", "#8b5cf6", "#d946ef", "#f43f5e", "#6366f1"]

/-- JavaScript ToInt32: wrap an exact integer into `[-2^31, 2^31)`. -/
def toInt32 (n : Int) : Int := (n + 2 ^ 31) % 2 ^ 32 - 2 ^ 31

/-- The accumulator loop `hash = type.charCodeAt(i) + ((hash << 5) - hash)`. -/
def jsHash (s : String) : Int :=
  s.data.foldl (fun h c => (c.toNat : Int) + (toInt32 (toInt32 h * 32) - h)) 0

/-- `getTypeColor(type)`: the neutral slate color for a falsy (empty) label,
otherwise the palette entry at `Math.abs(hash) % TYPE_COLORS.length`. -/
def getTypeColor (type : String) : String :=
  if type = "" then "#94a3b8"
  else TYPE_COLORS.getD ((jsHash type).natAbs % TYPE_COLORS.length) ""

/-- The call site passes `label || ''`: an absent label is classified as the
empty string. -/
def displayColorFor (label : Option String) : String :=
  getTypeColor (label.getD "")

/-! ## Parsed graph model (GraphViewer.tsx lines 92-213, types.ts)

A node-group contributes one `GraphNode` whose identity is the text of its
title child; its center prefers the anchor of the text label, falling back
to the ellipse center, then `(0, 0)`.  (Shape geometry, fill and stroke are
extracted too but no claim refers to them, so they are not carried here.)
An edge-group contributes a `GraphEdge` iff its title splits into at least
two parts. -/

/-- The attributes of a node group that the parser reads for identity and
position: the title text, the text anchor, the ellipse center. -/
structure NodeGroup where
  title : String
  textPos : Option (ℚ × ℚ)
  ellipseCenter : Option (ℚ × ℚ)
deriving DecidableEq

/-- The attributes of an edge group that the parser reads: the title text
and the optional trimmed label text. -/
structure EdgeGroup where
  title : String
  label : Option String
deriving DecidableEq

/-- A parsed node (`GraphNode` in types.ts, restricted to the fields the
claims mention). -/
structure GraphNode where
  id : String
  name : String
  x : ℚ
  y : ℚ
deriving DecidableEq

/-- A parsed edge (`GraphEdge` in types.ts). -/
structure GraphEdge where
  id : String
  source : String
  target : String
  label : Option String
  displayColor : String
deriving DecidableEq

/-- `GraphData`: the model handed to the renderers and the outer shell. -/
structure GraphData where
  nodes : List GraphNode
  edges : List GraphEdge
deriving DecidableEq

/-- Node extraction for one group: identity and display name are the title
text; the center prefers the text anchor, else the ellipse center, else 0. -/
def parseNode (g : NodeGroup) : GraphNode :=
  let p :=
    match g.textPos with
    | some q => q
    | none =>
      match g.ellipseCenter with
      | some q => q
      | none => ((0 : ℚ), (0 : ℚ))
  { id := g.title, name := g.title, x := p.1, y := p.2 }

/-- The node-group loop: one pushed `GraphNode` per node-group. -/
def parseNodes (gs : List NodeGroup) : List GraphNode := gs.map parseNode

/-- Edge extraction for one group: split the title on `/-+>|--/`; if at
least two parts result, emit the edge `(parts[0], parts[1])` colored from
the label, otherwise emit nothing. -/
def parseEdgeGroup (g : EdgeGroup) : Option GraphEdge :=
  match parseEdgeTitle g.title with
  | some (s, t) =>
    some { id := g.title, source := s, target := t, label := g.label,
           displayColor := displayColorFor g.label }
  | none => none

/-- The edge-group loop. -/
def parseEdges (gs : List EdgeGroup) : List GraphEdge := gs.filterMap parseEdgeGroup

/-- The whole parse effect: nodes from the node-groups, edges from the
edge-groups; the two extractions never consult each other. -/
def parseDiagram (ngs : List NodeGroup) (egs : List EdgeGroup) : GraphData :=
  { nodes := parseNodes ngs, edges := parseEdges egs }

/-! ## Selection highlighting (GraphViewer.tsx lines 751-812)

With a selected id the effect builds `connectedNodes` by walking
`layoutData.edges` and collecting the opposite endpoint of every edge
incident to the selection, then marks exactly the rendered nodes whose id is
in that set as connected — testing the datum id in fancy mode and the title
text of the group in static mode, both of which are the parsed node id. -/

/-- The `connectedNodes` set built by the highlighting effect (as a list;
only membership is ever used). -/
def connectedNodes (sel : String) : List GraphEdge → List String
  | [] => []
  | e :: rest =>
    (if e.source = sel then [e.target] else []) ++
      (if e.target = sel then [e.source] else []) ++ connectedNodes sel rest

/-- The nodes marked connected in static mode: the parsed nodes whose id is
in `connectedNodes`. -/
def markedConnectedStatic (nodes : List GraphNode) (edges : List GraphEdge)
    (sel : String) : List GraphNode :=
  nodes.filter fun n => decide (n.id ∈ connectedNodes sel edges)

/-- A simulation node of fancy mode: live position `x, y`, pin `fx, fy`
(`some` means pinned) and home position `originX, originY`, alongside the
identity copied from the parsed node. -/
structure SimNode where
  id : String
  name : String
  x : ℚ
  y : ℚ
  fx : Option ℚ
  fy : Option ℚ
  originX : ℚ
  originY : ℚ
deriving DecidableEq

/-- The nodes marked connected in fancy mode: the simulation nodes whose id
is in `connectedNodes`. -/
def markedConnectedFancy (nodes : List SimNode) (edges : List GraphEdge)
    (sel : String) : List SimNode :=
  nodes.filter fun n => decide (n.id ∈ connectedNodes sel edges)

/-- The neighbor relation of the specification: `other` shares an edge with
`sel` (it is the opposite endpoint of an edge whose source or target is
`sel`). -/
def SharesEdgeWith (edges : List GraphEdge) (sel other : String) : Prop :=
  ∃ e, e ∈ edges ∧ ((e.source = sel ∧ e.target = other) ∨
    (e.target = sel ∧ e.source = other))

/-! ## Fancy-mode setup (GraphViewer.tsx lines 375-411)

Setup computes the bounding box of the raw static coordinates, takes its
center, and maps every node to
`center + (raw − center) * FANCY_SCALE_FACTOR`, seeding position, pin and
home with that compacted point.  The code folds min/max starting from
positive/negative infinity; over a nonempty list this equals folding from
the first element, and over an empty list no simulation node is produced, so
the center value is irrelevant there.  (The source reads `n.x || 0`; the
parser always sets numeric coordinates, carried here as total `ℚ` fields.) -/

/-- The compaction factor `FANCY_SCALE_FACTOR = 0.5`. -/
def FANCY_SCALE_FACTOR : ℚ := 1 / 2

/-- Center `(minX + maxX) / 2` of the bounding box of the raw x coordinates. -/
def bboxCenterX : List GraphNode → ℚ
  | [] => 0
  | n :: rest =>
    (rest.foldl (fun m k => min m k.x) n.x + rest.foldl (fun m k => max m k.x) n.x) / 2

/-- Center `(minY + maxY) / 2` of the bounding box of the raw y coordinates. -/
def bboxCenterY : List GraphNode → ℚ
  | [] => 0
  | n :: rest =>
    (rest.foldl (fun m k => min m k.y) n.y + rest.foldl (fun m k => max m k.y) n.y) / 2

/-- The `simNodes` construction: scale every raw position toward the
bounding-box center by `FANCY_SCALE_FACTOR` and start the node pinned
(`fx = originX`, `fy = originY`) at that home position. -/
def fancySetup (nodes : List GraphNode) : List SimNode :=
  nodes.map fun n =>
    let sx := bboxCenterX nodes + (n.x - bboxCenterX nodes) * FANCY_SCALE_FACTOR
    let sy := bboxCenterY nodes + (n.y - bboxCenterY nodes) * FANCY_SCALE_FACTOR
    { id := n.id, name := n.name, x := sx, y := sy,
      fx := some sx, fy := some sy, originX := sx, originY := sy }

/-! ## View transform and interactive operations
(GraphViewer.tsx lines 215-299 and 814-886)

The zoom behavior is configured with `scaleExtent([0.01, 200])`; the d3
`scaleBy` operation clamps the new scale into that extent and keeps the
focal point fixed.  `performZoom` and the imperative handle return early
when the svg or zoom handles are absent, and a focal-node lookup miss falls
back to the viewport center. -/

/-- A d3 zoom transform `{k, x, y}`. -/
structure ZoomTransform where
  k : ℚ
  x : ℚ
  y : ℚ
deriving DecidableEq

def SCALE_MIN : ℚ := 1 / 100

def SCALE_MAX : ℚ := 200

/-- The d3 scale-extent clamp for `scaleExtent([0.01, 200])`. -/
def clampScale (k : ℚ) : ℚ := max SCALE_MIN (min SCALE_MAX k)

/-- The d3 `scaleBy` at a focal point: clamp the multiplied scale into the
extent and re-translate so the focal point stays fixed. -/
def scaleByAt (t : ZoomTransform) (factor px py : ℚ) : ZoomTransform :=
  { k := clampScale (t.k * factor),
    x := px - (px - t.x) / t.k * clampScale (t.k * factor),
    y := py - (py - t.y) / t.k * clampScale (t.k * factor) }

/-- The d3 `translateBy`. -/
def translateBy (t : ZoomTransform) (dx dy : ℚ) : ZoomTransform :=
  { t with x := t.x + t.k * dx, y := t.y + t.k * dy }

/-- One zoom step: `zoomIn`/`zoomOut` multiply the scale by 1.3 or 1/1.3
through `scaleBy`; a wheel event applies the d3 wheel factor, likewise
clamped by the scale extent. -/
inductive ZoomOp where
  | zoomIn (px py : ℚ)
  | zoomOut (px py : ℚ)
  | wheel (factor px py : ℚ)
deriving DecidableEq

def applyZoomOp (t : ZoomTransform) : ZoomOp → ZoomTransform
  | .zoomIn px py => scaleByAt t (13 / 10) px py
  | .zoomOut px py => scaleByAt t (10 / 13) px py
  | .wheel f px py => scaleByAt t f px py

def applyZoomOps (t : ZoomTransform) (ops : List ZoomOp) : ZoomTransform :=
  ops.foldl applyZoomOp t

/-- The mutable handles of the mounted viewer: whether the svg ref and the
zoom-behavior ref are populated, and the current zoom transform. -/
structure ViewerState where
  svgMounted : Bool
  zoomMounted : Bool
  transform : ZoomTransform
deriving DecidableEq

/-- The focal-point computation of `performZoom`: viewport center when
nothing is selected or when the selected node cannot be located, else the
current position of the node. -/
def zoomFocal (selected : Option String) (lookup : String → Option (ℚ × ℚ))
    (w h : ℚ) : ℚ × ℚ :=
  match selected with
  | none => (w / 2, h / 2)
  | some id =>
    match lookup id with
    | some p => p
    | none => (w / 2, h / 2)

/-- `performZoom`: early return when either handle is missing, otherwise
`scaleBy` 1.3 (in) or 1/1.3 (out) about the focal point. -/
def performZoom (st : ViewerState) (selected : Option String)
    (lookup : String → Option (ℚ × ℚ)) (w h : ℚ) (zoomIn : Bool) : ViewerState :=
  if st.svgMounted && st.zoomMounted then
    let c := zoomFocal selected lookup w h
    { st with transform := scaleByAt st.transform (if zoomIn then 13 / 10 else 10 / 13) c.1 c.2 }
  else st

/-- The imperative `pan(dx, dy)`: early return when a handle is missing. -/
def panOp (st : ViewerState) (dx dy : ℚ) : ViewerState :=
  if st.svgMounted && st.zoomMounted then
    { st with transform := translateBy st.transform dx dy }
  else st

/-- The imperative `resetZoom()`: early return when a handle is missing,
else the identity transform. -/
def resetZoomOp (st : ViewerState) : ViewerState :=
  if st.svgMounted && st.zoomMounted then
    { st with transform := { k := 1, x := 0, y := 0 } }
  else st

/-- The imperative `exportAsPng()`: `none` (no download is triggered) when
the svg handle is missing; the serialization/rasterization pipeline itself
is DOM-bound and outside this embedding, so a triggered export is `some ()`. -/
def exportAsPngOp (st : ViewerState) : Option Unit :=
  if st.svgMounted then some () else none

/-! ## Wheel gating (GraphViewer.tsx lines 284-289 and 814-820)

The filter of the zoom behavior admits a wheel event iff no node is selected
(it returns the negation of the selection ref) and admits other events iff
no mouse button is pressed; independently, the React wheel handler calls
`performZoom` iff a node is selected. -/

/-- The filter predicate installed on the zoom behavior. -/
def zoomFilter (isWheel : Bool) (selected : Option String) (button : Bool) : Bool :=
  if isWheel then !selected.isSome else !button

/-- Whether the native wheel handling of the zoom behavior is active. -/
def zoomFilterAllowsWheel (selected : Option String) : Bool :=
  zoomFilter true selected false

/-- Whether `handleWheel` performs a zoom (it does iff a node is selected). -/
def handleWheelZooms (selected : Option String) : Bool := selected.isSome

/-- Whether a wheel event over the canvas triggers a zoom through either
path. -/
def wheelTriggersZoom (selected : Option String) : Bool :=
  zoomFilterAllowsWheel selected || handleWheelZooms selected

/-! ## Selection toggling (App.tsx lines 79-86) -/

/-- `handleNodeToggle`: clicking the currently selected id clears the
selection, anything else becomes the selection. -/
def handleNodeToggle (nodeName selectedNodeId : Option String) : Option String :=
  if nodeName = selectedNodeId then none else nodeName

/-! ## Concrete inputs used by witnesses -/

/-- A two-node layout used to witness the fancy-mode setup claim. -/
def demoNodes : List GraphNode :=
  [{ id := "A", name := "A", x := 0, y := 0 },
   { id := "B", name := "B", x := 10, y := 4 }]

/-- The simulation node the setup produces for the second entry of
`demoNodes`: the center is `(5, 2)`, so the home position is `(15/2, 3)`. -/
def demoSimB : SimNode :=
  { id := "B", name := "B", x := 15 / 2, y := 3,
    fx := some (15 / 2), fy := some 3, originX := 15 / 2, originY := 3 }

/-- A two-group diagram with distinct titles used to witness the
node-identity claim. -/
def demoGroups : List NodeGroup :=
  [{ title := "A", textPos := none, ellipseCenter := none },
   { title := "B", textPos := none, ellipseCenter := none }]

/-- An unmounted viewer: both handles absent, identity transform. -/
def emptyViewer : ViewerState :=
  { svgMounted := false, zoomMounted := false,
    transform := { k := 1, x := 0, y := 0 } }

/-! ## Lemmas about the separator scan -/

lemma matchSep_pos {cs : List Char} {n : Nat} (h : matchSep cs = some n) : 1 ≤ n := by
  unfold matchSep at h
  split_ifs at h with h1 h2 <;> simp_all <;> omega

lemma dashRun_pos {cs : List Char} (h : 1 ≤ dashRun cs) : ∃ t, cs = '-' :: t := by
  cases cs with
  | nil => simp [dashRun] at h
  | cons c rest =>
    by_cases hc : c = '-'
    · exact ⟨rest, by rw [hc]⟩
    · simp [dashRun, hc] at h

lemma matchSep_isSome_sepOccurs {cs : List Char}
    (h : (matchSep cs).isSome = true) : SepOccurs cs := by
  unfold matchSep at h
  split_ifs at h with h1 h2
  · obtain ⟨hr, hgt⟩ := h1
    rcases Nat.lt_or_ge (dashRun cs) 2 with hlt | hge
    · -- dash run of length exactly 1 followed by the greater-than sign
      have hr1 : dashRun cs = 1 := by omega
      obtain ⟨t, rfl⟩ := dashRun_pos hr
      rw [hr1] at hgt
      cases t with
      | nil => simp at hgt
      | cons c2 t2 =>
        simp at hgt
        exact Or.inl ⟨[], t2, by simp [hgt]⟩
    · -- dash run of length at least 2: the first two characters are dashes
      obtain ⟨t, rfl⟩ := dashRun_pos hr
      have h2 : 1 ≤ dashRun t := by
        simp [dashRun] at hge; omega
      obtain ⟨t2, rfl⟩ := dashRun_pos h2
      exact Or.inr ⟨[], t2, rfl⟩
  · obtain ⟨t, rfl⟩ := dashRun_pos (le_trans (by norm_num) h2)
    have h3 : 1 ≤ dashRun t := by
      simp [dashRun] at h2; omega
    obtain ⟨t2, rfl⟩ := dashRun_pos h3
    exact Or.inr ⟨[], t2, rfl⟩
  · simp at h

lemma matchSep_dash_gt (t : List Char) : (matchSep ('-' :: '>' :: t)).isSome = true := by
  have hd : dashRun ('-' :: '>' :: t) = 1 := by simp [dashRun]
  simp [matchSep, hd]

lemma matchSep_dash_dash (t : List Char) : (matchSep ('-' :: '-' :: t)).isSome = true := by
  have hd : dashRun ('-' :: '-' :: t) = dashRun t + 2 := by simp [dashRun]
  unfold matchSep
  split_ifs with h1 h2
  · simp
  · simp
  · rw [hd] at h2; omega

lemma afterFirstSep_isSome_of_sepOccurs {cs : List Char}
    (h : SepOccurs cs) : (afterFirstSep cs).isSome = true := by
  rcases h with ⟨l2, r2, rfl⟩ | ⟨l2, r2, rfl⟩
  · induction l2 with
    | nil =>
      have := matchSep_dash_gt r2
      unfold afterFirstSep
      cases hm : matchSep ('-' :: '>' :: r2) with
      | some n => simp [hm]
      | none => rw [hm] at this; simp at this
    | cons a l ih =>
      show (afterFirstSep (a :: (l ++ ['-', '>'] ++ r2))).isSome = true
      unfold afterFirstSep
      cases hm : matchSep (a :: (l ++ ['-', '>'] ++ r2)) with
      | some n => simp [hm]
      | none => simpa using ih
  · induction l2 with
    | nil =>
      have := matchSep_dash_dash r2
      unfold afterFirstSep
      cases hm : matchSep ('-' :: '-' :: r2) with
      | some n => simp [hm]
      | none => rw [hm] at this; simp at this
    | cons a l ih =>
      show (afterFirstSep (a :: (l ++ ['-', '-'] ++ r2))).isSome = true
      unfold afterFirstSep
      cases hm : matchSep (a :: (l ++ ['-', '-'] ++ r2)) with
      | some n => simp [hm]
      | none => simpa using ih

lemma sepOccurs_cons {c : Char} {cs : List Char} (h : SepOccurs cs) :
    SepOccurs (c :: cs) := by
  rcases h with ⟨l2, r2, rfl⟩ | ⟨l2, r2, rfl⟩
  · exact Or.inl ⟨c :: l2, r2, rfl⟩
  · exact Or.inr ⟨c :: l2, r2, rfl⟩

lemma sepOccurs_of_afterFirstSep_isSome {cs : List Char}
    (h : (afterFirstSep cs).isSome = true) : SepOccurs cs := by
  induction cs with
  | nil => simp [afterFirstSep] at h
  | cons c rest ih =>
    unfold afterFirstSep at h
    cases hm : matchSep (c :: rest) with
    | some n => exact matchSep_isSome_sepOccurs (by simp [hm])
    | none =>
      rw [hm] at h
      exact sepOccurs_cons (ih h)

lemma afterFirstSep_isSome_iff (cs : List Char) :
    (afterFirstSep cs).isSome = true ↔ SepOccurs cs :=
  ⟨sepOccurs_of_afterFirstSep_isSome, afterFirstSep_isSome_of_sepOccurs⟩

lemma splitSepAux_length_pos (fuel : Nat) (cs acc : List Char) :
    1 ≤ (splitSepAux fuel cs acc).length := by
  induction fuel generalizing cs acc with
  | zero => cases cs <;> simp [splitSepAux]
  | succ f ih =>
    cases cs with
    | nil => simp [splitSepAux]
    | cons c rest =>
      unfold splitSepAux
      cases hm : matchSep (c :: rest) with
      | some n => simp
      | none => exact ih rest (c :: acc)

lemma splitSepAux_length_two (fuel : Nat) (cs acc : List Char) (h : cs.length ≤ fuel) :
    2 ≤ (splitSepAux fuel cs acc).length ↔ (afterFirstSep cs).isSome = true := by
  induction fuel generalizing cs acc with
  | zero =>
    cases cs with
    | nil => simp [splitSepAux, afterFirstSep]
    | cons c rest => simp at h
  | succ f ih =>
    cases cs with
    | nil => simp [splitSepAux, afterFirstSep]
    | cons c rest =>
      unfold splitSepAux afterFirstSep
      cases hm : matchSep (c :: rest) with
      | some n =>
        have := splitSepAux_length_pos f ((c :: rest).drop n) []
        simp
        omega
      | none =>
        have hlen : rest.length ≤ f := by simp at h; omega
        exact ih rest (c :: acc) hlen

lemma splitSepAux_getElem_zero (fuel : Nat) (cs acc : List Char) (h : cs.length ≤ fuel) :
    (splitSepAux fuel cs acc)[0]? = some (acc.reverse ++ beforeFirstSep cs) := by
  induction fuel generalizing cs acc with
  | zero =>
    cases cs with
    | nil => simp [splitSepAux, beforeFirstSep]
    | cons c rest => simp at h
  | succ f ih =>
    cases cs with
    | nil => simp [splitSepAux, beforeFirstSep]
    | cons c rest =>
      unfold splitSepAux beforeFirstSep
      cases hm : matchSep (c :: rest) with
      | some n => simp [hm]
      | none =>
        have hlen : rest.length ≤ f := by simp at h; omega
        rw [ih rest (c :: acc) hlen]
        simp [hm]

lemma splitSepAux_getElem_one (fuel : Nat) (cs acc rest2 : List Char)
    (h : cs.length ≤ fuel) (hr : afterFirstSep cs = some rest2) :
    (splitSepAux fuel cs acc)[1]? = some (beforeFirstSep rest2) := by
  induction fuel generalizing cs acc rest2 with
  | zero =>
    cases cs with
    | nil => simp [afterFirstSep] at hr
    | cons c rest => simp at h
  | succ f ih =>
    cases cs with
    | nil => simp [afterFirstSep] at hr
    | cons c rest =>
      unfold splitSepAux
      unfold afterFirstSep at hr
      cases hm : matchSep (c :: rest) with
      | some n =>
        rw [hm] at hr
        have hrest : rest2 = (c :: rest).drop n := by
          simpa using hr.symm
        have hn := matchSep_pos hm
        have hdrop : ((c :: rest).drop n).length ≤ f := by
          simp [List.length_drop] at *
          omega
        subst hrest
        have := splitSepAux_getElem_zero f ((c :: rest).drop n) [] hdrop
        simpa using this
      | none =>
        rw [hm] at hr
        have hlen : rest.length ≤ f := by simp at h; omega
        exact ih rest (c :: acc) rest2 hlen hr

/-! ## String-level facts about the split -/

lemma splitSep_length_two (t : String) :
    2 ≤ (splitSep t).length ↔ (afterFirstSep t.data).isSome = true := by
  rw [splitSep, List.length_map]
  exact splitSepAux_length_two _ _ _ le_rfl

lemma splitSep_getD_zero (t : String) :
    (splitSep t).getD 0 "" = String.mk (beforeFirstSep t.data) := by
  rw [List.getD_eq_getElem?_getD, splitSep, List.getElem?_map,
    splitSepAux_getElem_zero _ _ _ le_rfl]
  simp

lemma splitSep_getD_one (t : String) (rest2 : List Char)
    (hr : afterFirstSep t.data = some rest2) :
    (splitSep t).getD 1 "" = String.mk (beforeFirstSep rest2) := by
  rw [List.getD_eq_getElem?_getD, splitSep, List.getElem?_map,
    splitSepAux_getElem_one _ _ _ _ le_rfl hr]
  simp

lemma parseEdgeTitle_eq_none_iff (t : String) :
    parseEdgeTitle t = none ↔ ¬ SepOccurs t.data := by
  rw [← afterFirstSep_isSome_iff, parseEdgeTitle]
  split_ifs with h
  · simp [splitSep_length_two t |>.mp h]
  · rw [splitSep_length_two] at h
    simp [h]

lemma parseEdgeTitle_of_afterFirstSep (t : String) (rest2 : List Char)
    (hr : afterFirstSep t.data = some rest2) :
    parseEdgeTitle t = some (String.mk (beforeFirstSep t.data),
      String.mk (beforeFirstSep rest2)) := by
  have hs : (afterFirstSep t.data).isSome = true := by simp [hr]
  rw [parseEdgeTitle, if_pos ((splitSep_length_two t).mpr hs),
    splitSep_getD_zero, splitSep_getD_one t rest2 hr]

/-! ## Claim C1 -/

/-- C1 counterexample: the title `"A->B->C"` contains a separator, and the
text after its first separator is `"B->C"`, but the parser emits the edge
`{source: "A", target: "B"}` — the target is only the second split segment,
not all text after the first separator. -/
theorem edge_title_multi_separator_cex :
    parseEdgeTitle "A->B->C" = some ("A", "B")
      ∧ afterFirstSep ("A->B->C").data = some ("B->C").data
      ∧ ("B" : String) ≠ "B->C" :=
  ⟨by decide, by decide, by decide⟩

/-- C1 (amended): for every edge-group title, the parser emits no edge iff
the title contains neither a directed separator (one or more dashes followed
by a greater-than sign) nor the undirected separator of two dashes; when a
separator occurs, it emits exactly one edge whose source is the text before
the first separator and whose target is the text after the first separator
up to the next separator (for a single-separator title such as `"A->B"` or
`"A--B"` that is all the text after it). -/
theorem edge_title_parse_spec (title : String) :
    (parseEdgeTitle title = none ↔ ¬ SepOccurs title.data)
      ∧ (∀ rest2, afterFirstSep title.data = some rest2 →
          parseEdgeTitle title = some (String.mk (beforeFirstSep title.data),
            String.mk (beforeFirstSep rest2))) :=
  ⟨parseEdgeTitle_eq_none_iff title, parseEdgeTitle_of_afterFirstSep title⟩

/-- Witness for C1 at the single-separator titles of the claim: `"A--B"`
parses to source `"A"`, target `"B"`. -/
theorem edge_title_parse_spec_witness :
    afterFirstSep ("A--B").data = some ['B']
      ∧ parseEdgeTitle "A--B" = some ("A", "B") := by
  have h1 : afterFirstSep ("A--B").data = some ['B'] := by decide
  have h2 := (edge_title_parse_spec "A--B").2 ['B'] h1
  have e1 : String.mk (beforeFirstSep ("A--B").data) = "A" := by decide
  have e2 : String.mk (beforeFirstSep ['B']) = "B" := by decide
  rw [e1, e2] at h2
  exact ⟨h1, h2⟩

/-! ## Claim C10 -/

/-- C10: the edge extraction never validates endpoints — the emitted edge
list does not depend on the node-groups at all; a group whose title is
exactly `"->"` yields an edge with empty source and target; an edge-group
yields no edge exactly when its title contains no separator; and an edge may
name identities that match no parsed node (title `"B->C"` alongside the
single node `"A"`). -/
theorem edge_endpoint_no_validation (ngs1 ngs2 : List NodeGroup)
    (egs : List EdgeGroup) (g : EdgeGroup) :
    (parseDiagram ngs1 egs).edges = (parseDiagram ngs2 egs).edges
      ∧ (parseEdgeGroup g = none ↔ ¬ SepOccurs g.title.data)
      ∧ parseEdgeGroup { title := "->", label := none } =
          some { id := "->", source := "", target := "", label := none,
                 displayColor := "#94a3b8" }
      ∧ (parseDiagram [{ title := "A", textPos := none, ellipseCenter := none }]
            [{ title := "B->C", label := none }]).edges =
          [{ id := "B->C", source := "B", target := "C", label := none,
             displayColor := "#94a3b8" }]
      ∧ ((parseDiagram [{ title := "A", textPos := none, ellipseCenter := none }]
            [{ title := "B->C", label := none }]).nodes.map GraphNode.id) = ["A"] := by
  refine ⟨rfl, ?_, by decide, by decide, by decide⟩
  rw [← parseEdgeTitle_eq_none_iff]
  unfold parseEdgeGroup
  cases parseEdgeTitle g.title with
  | some p => cases p; simp
  | none => simp

/-! ## Claim C2 -/

lemma typeColors_getD_ne_neutral (m : Nat) :
    TYPE_COLORS.getD (m % TYPE_COLORS.length) "" ≠ "#94a3b8" := by
  have hlen : TYPE_COLORS.length = 10 := rfl
  have hb : ∀ k, k < 10 → TYPE_COLORS.getD k "" ≠ "#94a3b8" := by decide
  rw [hlen]
  exact hb _ (Nat.mod_lt _ (by norm_num))

/-- C2: `getTypeColor` is a pure total function of the label alone — an
absent label (the call site passes the empty string for it) and the empty
label both give the fixed neutral `"#94a3b8"`; every non-empty label gives
the palette entry at index `|hash| % 10` where `hash` is the
order-sensitive shift-subtract character-code hash (so `"AB"` and `"BA"`
hash differently), and a non-empty label never receives the neutral
default. -/
theorem get_type_color_spec (t : String) :
    TYPE_COLORS.length = 10
      ∧ getTypeColor "" = "#94a3b8"
      ∧ displayColorFor none = "#94a3b8"
      ∧ (t ≠ "" →
          getTypeColor t = TYPE_COLORS.getD ((jsHash t).natAbs % TYPE_COLORS.length) ""
            ∧ getTypeColor t ≠ "#94a3b8")
      ∧ jsHash "AB" ≠ jsHash "BA" := by
  refine ⟨rfl, by decide, by decide, fun h => ?_, by decide⟩
  rw [getTypeColor, if_neg h]
  exact ⟨rfl, typeColors_getD_ne_neutral _⟩

/-- Witness for C2 at the non-empty label `"AB"`. -/
theorem get_type_color_witness :
    ("AB" : String) ≠ "" ∧ getTypeColor "AB" ≠ "#94a3b8" :=
  ⟨by decide, ((get_type_color_spec "AB").2.2.2.1 (by decide)).2⟩

/-! ## Claim C3 -/

lemma mem_connectedNodes (sel x : String) (edges : List GraphEdge) :
    x ∈ connectedNodes sel edges ↔
      ∃ e, e ∈ edges ∧ ((e.source = sel ∧ e.target = x) ∨
        (e.target = sel ∧ e.source = x)) := by
  induction edges with
  | nil => simp [connectedNodes]
  | cons e rest ih =>
    unfold connectedNodes
    simp only [List.mem_append, ih, List.mem_cons]
    constructor
    · rintro ((h | h) | ⟨e2, he2, hor⟩)
      · split_ifs at h with hs
        · simp at h
          exact ⟨e, Or.inl rfl, Or.inl ⟨hs, h.symm⟩⟩
        · simp at h
      · split_ifs at h with ht
        · simp at h
          exact ⟨e, Or.inl rfl, Or.inr ⟨ht, h.symm⟩⟩
        · simp at h
      · exact ⟨e2, Or.inr he2, hor⟩
    · rintro ⟨e2, (rfl | he2), hor⟩
      · rcases hor with ⟨hs, ht⟩ | ⟨ht, hs⟩
        · exact Or.inl (Or.inl (by simp [hs, ht]))
        · exact Or.inl (Or.inr (by simp [hs, ht]))
      · exact Or.inr ⟨e2, he2, hor⟩

lemma fancySetup_map_id (nodes : List GraphNode) :
    (fancySetup nodes).map SimNode.id = nodes.map GraphNode.id := by
  simp [fancySetup, List.map_map]

/-- C3: with node id `sel` selected, a node is marked connected iff it is
one of the nodes of the graph and shares an edge with `sel` — with the same
characterization for the static DOM nodes and the fancy-mode simulation
nodes (which carry exactly the parsed ids). -/
theorem connected_highlight_spec (sel : String) (edges : List GraphEdge)
    (nodes : List GraphNode) (sims : List SimNode) (n : GraphNode) (m : SimNode) :
    (n ∈ markedConnectedStatic nodes edges sel ↔
        n ∈ nodes ∧ SharesEdgeWith edges sel n.id)
      ∧ (m ∈ markedConnectedFancy sims edges sel ↔
          m ∈ sims ∧ SharesEdgeWith edges sel m.id)
      ∧ (fancySetup nodes).map SimNode.id = nodes.map GraphNode.id := by
  refine ⟨?_, ?_, fancySetup_map_id nodes⟩
  · rw [markedConnectedStatic, List.mem_filter, decide_eq_true_eq,
      mem_connectedNodes]
    rfl
  · rw [markedConnectedFancy, List.mem_filter, decide_eq_true_eq,
      mem_connectedNodes]
    rfl

/-! ## Claim C4 -/

/-- C4: every simulation node gets a home position equal to
`center + (raw − center) × 0.5` per axis — equivalently the midpoint of the
bounding-box center and the raw static position, i.e. the point 50% of the
way from the center to the raw position — and the node starts with live
position and pin both equal to that home position. -/
theorem fancy_setup_origin_spec (nodes : List GraphNode) (i : Nat)
    (n : GraphNode) (s : SimNode)
    (hn : nodes[i]? = some n) (hs : (fancySetup nodes)[i]? = some s) :
    s.originX = bboxCenterX nodes + (n.x - bboxCenterX nodes) * FANCY_SCALE_FACTOR
      ∧ s.originY = bboxCenterY nodes + (n.y - bboxCenterY nodes) * FANCY_SCALE_FACTOR
      ∧ s.originX = (bboxCenterX nodes + n.x) / 2
      ∧ s.originY = (bboxCenterY nodes + n.y) / 2
      ∧ s.x = s.originX ∧ s.y = s.originY
      ∧ s.fx = some s.originX ∧ s.fy = some s.originY := by
  rw [fancySetup, List.getElem?_map, hn] at hs
  have hs2 := Option.some.inj hs
  subst hs2
  refine ⟨rfl, rfl, ?_, ?_, rfl, rfl, rfl, rfl⟩
  · show bboxCenterX nodes + (n.x - bboxCenterX nodes) * FANCY_SCALE_FACTOR = _
    rw [FANCY_SCALE_FACTOR]; ring
  · show bboxCenterY nodes + (n.y - bboxCenterY nodes) * FANCY_SCALE_FACTOR = _
    rw [FANCY_SCALE_FACTOR]; ring

/-- Witness for C4 on `demoNodes` at index 1. -/
theorem fancy_setup_origin_witness :
    demoSimB.originX = (bboxCenterX demoNodes + 10) / 2
      ∧ demoSimB.x = demoSimB.originX
      ∧ demoSimB.fx = some demoSimB.originX := by
  have hn : demoNodes[1]? = some { id := "B", name := "B", x := 10, y := 4 } := by
    simp [demoNodes]
  have hs : (fancySetup demoNodes)[1]? = some demoSimB := by
    simp [fancySetup, demoNodes, demoSimB, bboxCenterX, bboxCenterY, FANCY_SCALE_FACTOR]
    norm_num [min_def, max_def]
  have h := fancy_setup_origin_spec demoNodes 1
    { id := "B", name := "B", x := 10, y := 4 } demoSimB hn hs
  exact ⟨h.2.2.1, h.2.2.2.2.1, h.2.2.2.2.2.2.1⟩

/-! ## Claim C5 -/

/-- C5 counterexample: with no node selected a wheel event still triggers a
zoom (the filter of the zoom behavior returns the negation of the selection
ref, which admits the wheel event for the native d3 wheel zoom), so "the
event changes the scale iff some node id is selected" fails at
`selected = none`. -/
theorem wheel_zoom_unselected_cex :
    wheelTriggersZoom none = true ∧ (none : Option String).isSome = false := by
  constructor <;> rfl

/-- C5 (amended): every wheel event triggers a zoom regardless of selection,
through two mutually exclusive paths — the filter of the zoom behavior
admits the wheel event exactly when no node is selected (native
pointer-position wheel zoom), and the component wheel handler performs a
selection-centered zoom exactly when a node is selected. -/
theorem wheel_zoom_gating_spec (sel : Option String) :
    zoomFilterAllowsWheel sel = !sel.isSome
      ∧ handleWheelZooms sel = sel.isSome
      ∧ wheelTriggersZoom sel = true
      ∧ (zoomFilterAllowsWheel sel && handleWheelZooms sel) = false := by
  cases sel <;>
    simp [zoomFilterAllowsWheel, zoomFilter, handleWheelZooms, wheelTriggersZoom]

/-! ## Claim C6 -/

lemma clampScale_bounds (k : ℚ) :
    SCALE_MIN ≤ clampScale k ∧ clampScale k ≤ SCALE_MAX := by
  refine ⟨le_max_left _ _, max_le ?_ (min_le_left _ _)⟩
  rw [SCALE_MIN, SCALE_MAX]
  norm_num

lemma applyZoomOp_k (t : ZoomTransform) (op : ZoomOp) :
    SCALE_MIN ≤ (applyZoomOp t op).k ∧ (applyZoomOp t op).k ≤ SCALE_MAX := by
  cases op <;> exact clampScale_bounds _

/-- C6: starting from any transform whose scale lies in `[0.01, 200]` (the
initial identity transform has scale 1), every sequence of `zoomIn()`,
`zoomOut()` and wheel operations keeps the scale within `[0.01, 200]` —
repeated `zoomIn()` never exceeds 200 and repeated `zoomOut()` never drops
below 0.01, because every step passes through the `scaleExtent` clamp. -/
theorem zoom_scale_bounded (t : ZoomTransform) (ops : List ZoomOp)
    (h1 : SCALE_MIN ≤ t.k) (h2 : t.k ≤ SCALE_MAX) :
    SCALE_MIN ≤ (applyZoomOps t ops).k ∧ (applyZoomOps t ops).k ≤ SCALE_MAX := by
  induction ops generalizing t with
  | nil => exact ⟨h1, h2⟩
  | cons op rest ih =>
    have := ih (applyZoomOp t op) (applyZoomOp_k t op).1 (applyZoomOp_k t op).2
    simpa [applyZoomOps] using this

/-- Witness for C6: thirty consecutive zoom-in steps from the identity
transform stay within the scale extent. -/
theorem zoom_scale_bounded_witness :
    SCALE_MIN ≤ (applyZoomOps { k := 1, x := 0, y := 0 }
        (List.replicate 30 (ZoomOp.zoomIn 0 0))).k
      ∧ (applyZoomOps { k := 1, x := 0, y := 0 }
          (List.replicate 30 (ZoomOp.zoomIn 0 0))).k ≤ SCALE_MAX :=
  zoom_scale_bounded { k := 1, x := 0, y := 0 } _
    (by rw [SCALE_MIN]; norm_num) (by rw [SCALE_MAX]; norm_num)

/-! ## Claim C7 -/

/-- C7: clicking a node id that is currently selected clears the selection;
clicking it while it is not selected selects it; hence selecting an
unselected id twice in a row (select, then click again) returns the
selection to none. -/
theorem selection_toggle_spec (x : String) (sel : Option String) :
    handleNodeToggle (some x) (some x) = none
      ∧ (sel ≠ some x → handleNodeToggle (some x) sel = some x)
      ∧ (sel ≠ some x →
          handleNodeToggle (some x) (handleNodeToggle (some x) sel) = none) := by
  refine ⟨by simp [handleNodeToggle], fun h => ?_, fun h => ?_⟩
  · rw [handleNodeToggle, if_neg (Ne.symm h)]
  · have h2 : handleNodeToggle (some x) sel = some x := by
      rw [handleNodeToggle, if_neg (Ne.symm h)]
    rw [h2]
    simp [handleNodeToggle]

/-- Witness for C7: from an empty selection, clicking `"A"` twice selects it
and then clears it. -/
theorem selection_toggle_witness :
    handleNodeToggle (some "A") none = some "A"
      ∧ handleNodeToggle (some "A") (handleNodeToggle (some "A") none) = none :=
  ⟨(selection_toggle_spec "A" none).2.1 (by simp),
   (selection_toggle_spec "A" none).2.2 (by simp)⟩

/-! ## Claim C8 -/

/-- C8: when the svg or zoom handle is absent every imperative operation
(`zoomIn`/`zoomOut` via `performZoom`, `pan`, `resetZoom`) returns with the
state unchanged, `exportAsPng` triggers nothing when the svg handle is
absent, and a focal-node lookup miss during zoom-centering falls back to the
viewport center `(w/2, h/2)`; all of the operations are total, so none can
throw. -/
theorem interactive_noop_spec (st : ViewerState) (sel : Option String)
    (lookup : String → Option (ℚ × ℚ)) (w h dx dy : ℚ) (id : String) :
    (st.svgMounted = false ∨ st.zoomMounted = false →
        performZoom st sel lookup w h true = st
          ∧ performZoom st sel lookup w h false = st
          ∧ panOp st dx dy = st
          ∧ resetZoomOp st = st)
      ∧ (st.svgMounted = false → exportAsPngOp st = none)
      ∧ (lookup id = none → zoomFocal (some id) lookup w h = (w / 2, h / 2)) := by
  refine ⟨fun hmiss => ?_, fun hsvg => ?_, fun hmiss => ?_⟩
  · have hcond : (st.svgMounted && st.zoomMounted) = false := by
      rcases hmiss with h | h <;> simp [h]
    exact ⟨by rw [performZoom, hcond]; rfl, by rw [performZoom, hcond]; rfl,
      by rw [panOp, hcond]; rfl, by rw [resetZoomOp, hcond]; rfl⟩
  · rw [exportAsPngOp, hsvg]
    rfl
  · rw [zoomFocal, hmiss]

/-- Witness for C8 on a viewer with both handles absent and an
always-missing lookup. -/
theorem interactive_noop_witness :
    performZoom emptyViewer none (fun _ => none) 100 80 true = emptyViewer
      ∧ exportAsPngOp emptyViewer = none
      ∧ zoomFocal (some "X") (fun _ => none) 100 80 = (50, 40) := by
  have h := interactive_noop_spec emptyViewer none (fun _ => none) 100 80 0 0 "X"
  refine ⟨(h.1 (Or.inl rfl)).1, h.2.1 rfl, ?_⟩
  rw [h.2.2 rfl]
  norm_num

/-! ## Claim C9 -/

lemma parseNodes_map_id (gs : List NodeGroup) :
    (parseNodes gs).map GraphNode.id = gs.map NodeGroup.title := by
  simp [parseNodes, List.map_map]
  intro a _
  rfl

/-- C9 counterexample: the node extraction pushes one `GraphNode` per
node-group without deduplication, so a diagram whose node-groups carry the
same title twice parses to two nodes with the same id — the output ids are
not pairwise distinct. -/
theorem duplicate_title_nodes_cex :
    (parseNodes [{ title := "A", textPos := none, ellipseCenter := none },
        { title := "A", textPos := none, ellipseCenter := none }]).map GraphNode.id
      = ["A", "A"]
      ∧ ¬ ((parseNodes [{ title := "A", textPos := none, ellipseCenter := none },
          { title := "A", textPos := none, ellipseCenter := none }]).map
            GraphNode.id).Nodup := by
  constructor
  · rw [parseNodes_map_id]
    rfl
  · rw [parseNodes_map_id]
    decide

/-- C9 (amended): the parse emits exactly one `GraphNode` per node-group,
with id equal to the title of the group; hence whenever the titles of the
node-groups are pairwise distinct (which layout-engine output guarantees,
one group per node), the output node ids are pairwise distinct, with exactly
one node per identity present. -/
theorem node_identity_amended (gs : List NodeGroup)
    (h : (gs.map NodeGroup.title).Nodup) :
    ((parseNodes gs).map GraphNode.id).Nodup
      ∧ (∀ t, ((parseNodes gs).map GraphNode.id).count t =
          (gs.map NodeGroup.title).count t)
      ∧ (∀ t, t ∈ gs.map NodeGroup.title →
          ((parseNodes gs).map GraphNode.id).count t = 1) := by
  rw [parseNodes_map_id]
  exact ⟨h, fun t => rfl, fun t ht => List.count_eq_one_of_mem h ht⟩

/-- Witness for C9 on `demoGroups`. -/
theorem node_identity_amended_witness :
    ((parseNodes demoGroups).map GraphNode.id).Nodup
      ∧ ((parseNodes demoGroups).map GraphNode.id).count "A" = 1 := by
  have h := node_identity_amended demoGroups (by decide)
  exact ⟨h.1, h.2.2 "A" (by decide)⟩

end MuseumASTGraph
